import Mathlib

/-!
Shallow embedding of the mesh vertex-compaction, duplicate-detection and
vertex-transplant operations of `src/spells/mesh.cpp` (NifSkope mesh spells).

Attribute components are modelled as exact rationals: the source compares
positions, normals, colors and UVs with exact floating-point equality
(`operator==`, no epsilon) and the transplant tolerance test uses only
strict comparisons, so the logical structure of every comparison is
preserved by `ℚ`.

Index arrays (triangles, strips, bone vertex indices) are `Nat`; in the
source they are `quint16`, and all meshes in scope have fewer than 2^16
vertices, so no wrap-around behaviour is lost.
-/

abbrev V3 : Type := ℚ × ℚ × ℚ

abbrev C4 : Type := ℚ × ℚ × ℚ × ℚ

abbrev V2 : Type := ℚ × ℚ

abbrev Triangle : Type := Nat × Nat × Nat

/-- One bone of the `NiSkinData` "Bone List": the declared "Num Vertices"
field and the "Vertex Weights" array of (vertex index, weight) pairs. -/
structure Bone where
  numVertices : Nat
  weights : List (Nat × ℚ)
deriving DecidableEq

/-- The per-mesh data read and written by the removal spells: the parallel
attribute arrays of the data block ("Vertices", "Normals", "Vertex Colors",
"UV Sets"), the declared "Num Vertices" field, the topology arrays
("Triangles" and the strip "Points"), the skin bone list, and whether an
associated `NiSkinPartition` block exists. -/
structure Mesh where
  verts : List V3
  norms : List V3
  colors : List C4
  texco : List (List V2)
  numVertices : Nat
  tris : List Triangle
  strips : List (List Nat)
  bones : List Bone
  hasSkinPartition : Bool
deriving DecidableEq

/-- Result of a removal spell: the mesh state after the operation, the
removed count reported by `Message::info` (computed as
`verts.count() - used.count()`, an `int` in the source, hence `Int` here),
whether the compaction pass wrote arrays back, whether the skin partition
block was deleted, whether the advisory regeneration warning was shown,
and the error message of a thrown `QString`, if any. -/
structure OpResult where
  mesh : Mesh
  removedReported : Int
  wrote : Bool
  skinPartitionDeleted : Bool
  warned : Bool
  error : Option String
deriving DecidableEq

/-- The three corner indices of a triangle, in order. -/
def triIndices (t : Triangle) : List Nat := [t.1, t.2.1, t.2.2]

/-- Every vertex index occurring in the triangle list followed by every
index occurring in a strip, in scan order. -/
def topoIndexList (m : Mesh) : List Nat := m.tris.flatMap triIndices ++ m.strips.flatten

/-- The `used` map of `removeWasteVertices`: the set of vertex indices
referenced by any triangle corner or strip element. -/
def usedSet (m : Mesh) : Finset Nat := (topoIndexList m).toFinset

/-- All topology indices are in range for the vertex array. -/
def meshTopoBounded (m : Mesh) : Prop := ∀ i ∈ topoIndexList m, i < m.verts.length

instance (m : Mesh) : Decidable (meshTopoBounded m) := by
  unfold meshTopoBounded; infer_instance

/-- The validation performed at the start of `removeWasteVertices` and of
`spRemoveDuplicateVertices::cast`, in source order: empty vertex array,
then each UV channel's length against the vertex count, then the declared
"Num Vertices" field and the optional normal/color arrays. Returns the
thrown message, or `none` when all checks pass. -/
def validate (m : Mesh) : Option String :=
  if m.verts.length == 0 then some "No vertices"
  else if m.texco.any (fun ch => ch.length != m.verts.length) then some "UV array size differs"
  else if m.numVertices != m.verts.length
      || (!m.norms.isEmpty && m.norms.length != m.verts.length)
      || (!m.colors.isEmpty && m.colors.length != m.verts.length) then
    some "Vertex array size differs"
  else none

/-- The loop `for x = 0 .. numVerts-1: if used contains x then map.insert(x, y++)`
threaded over an explicit list of candidate indices with the running
counter `y`. -/
def tableAux (used : Finset Nat) : List Nat → Nat → List (Nat × Nat)
  | [], _ => []
  | x :: xs, y => if x ∈ used then (x, y) :: tableAux used xs (y + 1) else tableAux used xs y

/-- The dense old-index to new-index table built by `removeWasteVertices`. -/
def newIndexTable (used : Finset Nat) (n : Nat) : List (Nat × Nat) :=
  tableAux used (List.range n) 0

/-- `if map.contains(i) then map[i] else i`: remap an index through an
association table, leaving indices without an entry unchanged. -/
def applyMap (tbl : List (Nat × Nat)) (i : Nat) : Nat := (tbl.lookup i).getD i

/-- Remap all three corners of a triangle. -/
def remapTri (tbl : List (Nat × Nat)) (t : Triangle) : Triangle :=
  (applyMap tbl t.1, applyMap tbl t.2.1, applyMap tbl t.2.2)

/-- `removeFromArray` keeps exactly the elements whose position is a key of
the map; threaded with the running element index. -/
def keepAux {α : Type} (used : Finset Nat) : Nat → List α → List α
  | _, [] => []
  | i, a :: t => if i ∈ used then a :: keepAux used (i + 1) t else keepAux used (i + 1) t

/-- `removeFromArray( array, used )` of the source: removes the elements at
positions not contained in `used`. -/
def removeFromArray {α : Type} (arr : List α) (used : Finset Nat) : List α :=
  keepAux used 0 arr

/-- The per-bone pass of `removeWasteVertices`: drop weights whose vertex
index is not in `used`, rewrite surviving indices through the table, and
store the surviving length in the bone's "Num Vertices" field. -/
def updateBone (used : Finset Nat) (tbl : List (Nat × Nat)) (b : Bone) : Bone :=
  let ws := (b.weights.filter (fun w => w.1 ∈ used)).map (fun w => (applyMap tbl w.1, w.2))
  ⟨ws.length, ws⟩

/-- The write-back pass of `removeWasteVertices`: compact every attribute
array in lockstep through the used set, remap the topology through the new
index table, resync the bone weight lists, and delete the skin partition
block. -/
def compactMesh (m : Mesh) : Mesh :=
  let used := usedSet m
  let tbl := newIndexTable used m.verts.length
  let newVerts := removeFromArray m.verts used
  { verts := newVerts
    norms := removeFromArray m.norms used
    colors := removeFromArray m.colors used
    texco := m.texco.map (fun ch => removeFromArray ch used)
    numVertices := newVerts.length
    tris := m.tris.map (remapTri tbl)
    strips := m.strips.map (fun s => s.map (applyMap tbl))
    bones := m.bones.map (updateBone used tbl)
    hasSkinPartition := false }

/-- `removeWasteVertices( nif, iData, iShape )`: validate, build the used
set, report the removed count, stop if nothing is unused, otherwise compact
every attribute array, remap the topology, resync the bone weight lists and
delete any skin partition block. A thrown validation message leaves the
mesh untouched. -/
def removeWasteVertices (m : Mesh) : OpResult :=
  match validate m with
  | some e => ⟨m, 0, false, false, false, some e⟩
  | none =>
    let used := usedSet m
    let n := m.verts.length
    let removed : Int := (n : Int) - (used.card : Int)
    if used.card == n then
      ⟨m, removed, false, false, false, none⟩
    else
      ⟨compactMesh m, removed, true, m.hasSkinPartition, m.hasSkinPartition, none⟩

/-- `spRemoveWasteVertices::cast` calls `removeWasteVertices` directly. -/
def removeUnusedVertices (m : Mesh) : OpResult := removeWasteVertices m

/-- The duplicate test of `spRemoveDuplicateVertices::cast`: exact equality
of positions, of normals when present, of colors when present, and of every
UV channel (the source breaks out of the UV loop at the first differing
channel, which is `List.all`). -/
def attrMatch (m : Mesh) (a b : Nat) : Bool :=
  m.verts.getD a default == m.verts.getD b default
  && (m.norms.isEmpty || m.norms.getD a default == m.norms.getD b default)
  && (m.colors.isEmpty || m.colors.getD a default == m.colors.getD b default)
  && m.texco.all (fun ch => ch.getD a default == ch.getD b default)

/-- `QMap::insert` on an association list: replace the value at an existing
key, otherwise add the pair. -/
def insertAssoc (l : List (Nat × Nat)) (k v : Nat) : List (Nat × Nat) :=
  if l.any (fun p => p.1 == k) then l.map (fun p => if p.1 == k then (k, v) else p)
  else l ++ [(k, v)]

/-- The detection pass of `spRemoveDuplicateVertices::cast`: for each `a`
ascending and each `b < a` ascending, on a full attribute match insert
`b -> a` (the earlier index is the key, the later the value, and a later
match for the same `b` overwrites -- there is no break). -/
def findDuplicates (m : Mesh) : List (Nat × Nat) :=
  (List.range m.verts.length).foldl
    (fun acc a =>
      (List.range a).foldl
        (fun acc2 b => if attrMatch m a b then insertAssoc acc2 b a else acc2) acc)
    []

/-- The topology substitution of `spRemoveDuplicateVertices::cast`: every
triangle corner and strip element is rewritten through the duplicate map
(written back before `removeWasteVertices` runs). -/
def dupRemapped (m : Mesh) : Mesh :=
  let dm := findDuplicates m
  { m with
    tris := m.tris.map (remapTri dm)
    strips := m.strips.map (fun s => s.map (applyMap dm)) }

/-- `spRemoveDuplicateVertices::cast`: validate, build the duplicate map,
substitute it into the triangle and strip arrays (written back at once),
then run `removeWasteVertices` on the result. -/
def removeDuplicateVertices (m : Mesh) : OpResult :=
  match validate m with
  | some e => ⟨m, 0, false, false, false, some e⟩
  | none => removeWasteVertices (dupRemapped m)

/-- One record of the clipboard vertex snapshot as parsed by
`spPasteVertexData::cast`: a position and a UV pair. -/
structure SampleRec where
  pos : V3
  uv : V2
deriving DecidableEq, Inhabited

/-- One current vertex of the partition's "Vertex Data" as read by the
transplant loop: its "Vertex" position and its "UV" pair. -/
structure VertexRec where
  pos : V3
  uv : V2
deriving DecidableEq, Inhabited

/-- The fixed UV tolerance of the source: `0.00001`. -/
def uvTolerance : ℚ := 1 / 100000

/-- The tolerance test of the transplant inner loop:
`diffX > -tol && diffX < tol && diffY > -tol && diffY < tol`
with `diff = uv - uv2`, all comparisons strict. -/
def uvClose (uv suv : V2) (tol : ℚ) : Bool :=
  decide (-tol < uv.1 - suv.1) && decide (uv.1 - suv.1 < tol)
  && decide (-tol < uv.2 - suv.2) && decide (uv.2 - suv.2 < tol)

/-- `for (j = start; j < start + fuel; j++) if ok j then return j`. -/
def scanFrom (ok : Nat → Bool) : Nat → Nat → Option Nat
  | _, 0 => none
  | j, k + 1 => if ok j then some j else scanFrom ok (j + 1) k

/-- The inner loop of the transplant: scan the samples in order, skip the
ones already marked used, and return the first index whose UV passes the
tolerance test, if any. -/
def findSample (uv : V2) (samples : List SampleRec) (used : List Bool) (tol : ℚ) : Option Nat :=
  scanFrom (fun j => !(used.getD j true) && uvClose uv (samples.getD j default).uv tol)
    0 samples.length

/-- One iteration of the transplant outer loop for a single vertex: on a
match, copy the sample's position onto the vertex (the UV is written back
unchanged), mark the sample used and report a match; otherwise leave the
vertex and the used flags as they were. -/
def processVertex (tol : ℚ) (samples : List SampleRec) (used : List Bool) (v : VertexRec) :
    VertexRec × List Bool × Bool :=
  match findSample v.uv samples used tol with
  | some j => (⟨(samples.getD j default).pos, v.uv⟩, used.set j true, true)
  | none => (v, used, false)

/-- The transplant outer loop over the current vertices in ascending index
order, returning the updated vertices, the unmatched indices in ascending
order, and the modified count. -/
def transplantAux (tol : ℚ) (samples : List SampleRec) :
    List VertexRec → List Bool → Nat → List VertexRec × List Nat × Nat
  | [], _, _ => ([], [], 0)
  | v :: rest, us, i =>
    let pv := processVertex tol samples us v
    let r := transplantAux tol samples rest pv.2.1 (i + 1)
    (pv.1 :: r.1, if pv.2.2 then r.2.1 else i :: r.2.1, if pv.2.2 then r.2.2 + 1 else r.2.2)

/-- Result of `spPasteVertexData::cast`: the vertex records after the
operation, the reported unmatched indices, the modified count, and the
failure, if any. On failure the mesh is returned unmodified. -/
structure TransplantResult where
  verts : List VertexRec
  missed : List Nat
  modified : Nat
  error : Option String
deriving DecidableEq

/-- `spPasteVertexData::cast` after JSON parsing: reject the snapshot when
its record count differs from the vertex count, before any write;
otherwise run the greedy first-fit matching loop with all used flags
initially false. -/
def pasteVertexData (cur : List VertexRec) (samples : List SampleRec) : TransplantResult :=
  if samples.length == cur.length then
    let r := transplantAux uvTolerance samples cur (List.replicate samples.length false) 0
    ⟨r.1, r.2.1, r.2.2, none⟩
  else ⟨cur, [], 0, some "CountMismatch"⟩

/-- Specification-side new index of a kept vertex: the number of kept
indices strictly below it (new indices are assigned by scanning old indices
in ascending order and incrementing a counter only for kept ones). -/
def specNewIndex (used : Finset Nat) (i : Nat) : Nat :=
  ((List.range i).filter (fun x => decide (x ∈ used))).length

theorem tableAux_key_mem {used : Finset Nat} :
    ∀ (l : List Nat) (y : Nat) (p : Nat × Nat), p ∈ tableAux used l y → p.1 ∈ l := by
  intro l
  induction l with
  | nil => intro y p hp; simp [tableAux] at hp
  | cons x xs ih =>
    intro y p hp
    simp only [tableAux] at hp
    by_cases hx : x ∈ used
    · simp only [if_pos hx, List.mem_cons] at hp
      rcases hp with h | h
      · subst h; simp
      · exact List.mem_cons_of_mem _ (ih _ p h)
    · simp only [if_neg hx] at hp
      exact List.mem_cons_of_mem _ (ih _ p hp)

theorem lookup_eq_none_of_keys {β : Type} (tbl : List (Nat × β)) (k : Nat)
    (h : ∀ p ∈ tbl, p.1 ≠ k) : tbl.lookup k = none := by
  induction tbl with
  | nil => rfl
  | cons p es ih =>
    have hk : p.1 ≠ k := h p (List.mem_cons_self p es)
    have : (k == p.1) = false := beq_false_of_ne (fun hkk => hk hkk.symm)
    simp only [List.lookup, this]
    exact ih (fun q hq => h q (List.mem_cons_of_mem _ hq))

theorem lookup_append {β : Type} (l1 l2 : List (Nat × β)) (k : Nat) :
    (l1 ++ l2).lookup k = ((l1.lookup k).or (l2.lookup k)) := by
  induction l1 with
  | nil => simp [List.lookup]
  | cons p es ih =>
    rcases p with ⟨a, b⟩
    by_cases hk : k = a
    · subst hk; simp [List.lookup]
    · have : (k == a) = false := beq_false_of_ne hk
      simp [List.lookup, this, ih]

theorem tableAux_append (used : Finset Nat) (l1 l2 : List Nat) (y : Nat) :
    tableAux used (l1 ++ l2) y
      = tableAux used l1 y ++ tableAux used l2 (y + l1.countP (fun x => decide (x ∈ used))) := by
  induction l1 generalizing y with
  | nil => simp [tableAux]
  | cons x xs ih =>
    have hcount : List.countP (fun x => decide (x ∈ used)) (x :: xs)
        = List.countP (fun x => decide (x ∈ used)) xs + if x ∈ used then 1 else 0 := by
      by_cases hx : x ∈ used <;> simp [List.countP_cons, hx]
    by_cases hx : x ∈ used
    · have harith : y + (List.countP (fun x => decide (x ∈ used)) xs + 1)
          = y + 1 + List.countP (fun x => decide (x ∈ used)) xs := by omega
      simp only [List.cons_append, tableAux, if_pos hx, hcount, harith, List.cons_append]
      exact congrArg (List.cons (x, y)) (ih (y + 1))
    · have harith : y + (List.countP (fun x => decide (x ∈ used)) xs + 0)
          = y + List.countP (fun x => decide (x ∈ used)) xs := by omega
      simp only [List.cons_append, tableAux, if_neg hx, hcount, harith]
      exact ih y

theorem lookup_newIndexTable (used : Finset Nat) {n i : Nat} (hi : i < n) (hu : i ∈ used) :
    (newIndexTable used n).lookup i = some (specNewIndex used i) := by
  induction n with
  | zero => omega
  | succ n ih =>
    rw [newIndexTable, List.range_succ, tableAux_append, lookup_append]
    rcases Nat.lt_or_ge i n with hlt | hge
    · rw [show tableAux used (List.range n) 0 = newIndexTable used n from rfl, ih hlt]
      rfl
    · have hin : i = n := by omega
      subst hin
      have hnone : (tableAux used (List.range i) 0).lookup i = none := by
        apply lookup_eq_none_of_keys
        intro p hp
        have hm := @tableAux_key_mem used _ _ p hp
        have : p.1 < i := List.mem_range.mp hm
        omega
      rw [hnone, Option.none_or]
      simp only [tableAux, if_pos hu]
      rw [List.lookup_cons]
      simp [specNewIndex, List.countP_eq_length_filter]

theorem keepAux_length {α : Type} (used : Finset Nat) :
    ∀ (arr : List α) (i : Nat),
      (keepAux used i arr).length
        = ((List.range' i arr.length).filter (fun x => decide (x ∈ used))).length := by
  intro arr
  induction arr with
  | nil => intro i; rfl
  | cons a t ih =>
    intro i
    rw [List.length_cons, List.range'_succ]
    by_cases hx : i ∈ used
    · simp [keepAux, hx, ih, List.filter_cons]
    · simp [keepAux, hx, ih, List.filter_cons]

theorem removeFromArray_length {α : Type} (arr : List α) (used : Finset Nat) :
    (removeFromArray arr used).length
      = ((List.range arr.length).filter (fun x => decide (x ∈ used))).length := by
  rw [removeFromArray, keepAux_length, List.range_eq_range']

theorem specNewIndex_lt (used : Finset Nat) {n i : Nat} (hi : i < n) (hu : i ∈ used) :
    specNewIndex used i < ((List.range n).filter (fun x => decide (x ∈ used))).length := by
  induction n with
  | zero => omega
  | succ n ih =>
    rw [List.range_succ, List.filter_append, List.length_append]
    rcases Nat.lt_or_ge i n with hlt | hge
    · have := ih hlt
      omega
    · have hin : i = n := by omega
      subst hin
      simp [specNewIndex, List.filter_cons, hu]

theorem filter_range_toFinset (used : Finset Nat) (n : Nat) :
    ((List.range n).filter (fun x => decide (x ∈ used))).toFinset
      = used.filter (fun x => x < n) := by
  ext x
  simp [List.mem_filter, List.mem_range, Finset.mem_filter, and_comm]

theorem filter_range_length_card (used : Finset Nat) (n : Nat) (h : used ⊆ Finset.range n) :
    ((List.range n).filter (fun x => decide (x ∈ used))).length = used.card := by
  have hnd : ((List.range n).filter (fun x => decide (x ∈ used))).Nodup :=
    (List.nodup_range n).filter _
  rw [← List.toFinset_card_of_nodup hnd, filter_range_toFinset]
  congr 1
  apply Finset.filter_true_of_mem
  intro x hx
  exact Finset.mem_range.mp (h hx)

theorem mem_usedSet {m : Mesh} {i : Nat} : i ∈ usedSet m ↔ i ∈ topoIndexList m :=
  List.mem_toFinset

theorem mem_of_lookup_eq_some {β : Type} {l : List (Nat × β)} {k : Nat} {v : β}
    (h : l.lookup k = some v) : (k, v) ∈ l := by
  induction l with
  | nil => simp [List.lookup] at h
  | cons p es ih =>
    rcases p with ⟨a, b⟩
    by_cases hk : k = a
    · subst hk
      simp [List.lookup] at h
      simp [h]
    · have hb : (k == a) = false := beq_false_of_ne hk
      simp only [List.lookup, hb] at h
      exact List.mem_cons_of_mem _ (ih h)

theorem removeWasteVertices_eq_error {m : Mesh} {e : String} (hv : validate m = some e) :
    removeWasteVertices m = ⟨m, 0, false, false, false, some e⟩ := by
  unfold removeWasteVertices
  rw [hv]

theorem removeWasteVertices_eq_noop {m : Mesh} (hv : validate m = none)
    (hc : (usedSet m).card = m.verts.length) :
    removeWasteVertices m
      = ⟨m, (m.verts.length : Int) - ((usedSet m).card : Int), false, false, false, none⟩ := by
  unfold removeWasteVertices
  rw [hv]
  simp [hc]

theorem removeWasteVertices_eq_write {m : Mesh} (hv : validate m = none)
    (hc : (usedSet m).card ≠ m.verts.length) :
    removeWasteVertices m
      = ⟨compactMesh m, (m.verts.length : Int) - ((usedSet m).card : Int), true,
          m.hasSkinPartition, m.hasSkinPartition, none⟩ := by
  unfold removeWasteVertices
  rw [hv]
  have hb : ((usedSet m).card == m.verts.length) = false := by simpa using hc
  simp [hb]

theorem removeDuplicateVertices_eq_error {m : Mesh} {e : String} (hv : validate m = some e) :
    removeDuplicateVertices m = ⟨m, 0, false, false, false, some e⟩ := by
  unfold removeDuplicateVertices
  rw [hv]

theorem removeDuplicateVertices_eq_ok {m : Mesh} (hv : validate m = none) :
    removeDuplicateVertices m = removeWasteVertices (dupRemapped m) := by
  unfold removeDuplicateVertices
  rw [hv]

theorem topo_remap (tris : List Triangle) (strips : List (List Nat)) (tbl : List (Nat × Nat)) :
    (tris.map (remapTri tbl)).flatMap triIndices
        ++ (strips.map (fun s => s.map (applyMap tbl))).flatten
      = (tris.flatMap triIndices ++ strips.flatten).map (applyMap tbl) := by
  rw [List.map_append, List.map_flatMap, List.flatMap_map]
  congr 1
  simp [List.map_flatten]

theorem topoIndexList_compactMesh (m : Mesh) :
    topoIndexList (compactMesh m)
      = (topoIndexList m).map (applyMap (newIndexTable (usedSet m) m.verts.length)) := by
  simp only [topoIndexList, compactMesh]
  exact topo_remap m.tris m.strips _

theorem compactMesh_verts_length (m : Mesh) :
    (compactMesh m).verts.length
      = ((List.range m.verts.length).filter (fun x => decide (x ∈ usedSet m))).length :=
  removeFromArray_length _ _

theorem topoIndexList_dupRemapped (m : Mesh) :
    topoIndexList (dupRemapped m) = (topoIndexList m).map (applyMap (findDuplicates m)) := by
  simp only [topoIndexList, dupRemapped]
  exact topo_remap m.tris m.strips _

theorem dupRemapped_verts (m : Mesh) : (dupRemapped m).verts = m.verts := rfl

theorem validate_dupRemapped (m : Mesh) : validate (dupRemapped m) = validate m := rfl

theorem mem_insertAssoc {l : List (Nat × Nat)} {k v : Nat} {p : Nat × Nat}
    (hp : p ∈ insertAssoc l k v) : p ∈ l ∨ p = (k, v) := by
  unfold insertAssoc at hp
  by_cases hany : l.any (fun q => q.1 == k)
  · rw [if_pos hany] at hp
    rcases List.mem_map.mp hp with ⟨q, hq, hqe⟩
    by_cases hqk : q.1 = k
    · right
      simp [hqk] at hqe
      exact hqe.symm
    · left
      have hb : (q.1 == k) = false := beq_false_of_ne hqk
      simp only [hb] at hqe
      simp only [Bool.false_eq_true, if_false] at hqe
      exact hqe ▸ hq
  · rw [if_neg hany] at hp
    rcases List.mem_append.mp hp with h | h
    · exact Or.inl h
    · right
      simpa using h

theorem foldl_preserve {α β : Type} {P : β → Prop} (f : β → α → β) (l : List α) (b : β)
    (hb : P b) (hf : ∀ acc, P acc → ∀ a ∈ l, P (f acc a)) : P (l.foldl f b) := by
  induction l generalizing b with
  | nil => exact hb
  | cons x xs ih =>
    exact ih _ (hf b hb x (List.mem_cons_self x xs))
      (fun acc hacc a ha => hf acc hacc a (List.mem_cons_of_mem _ ha))

theorem findDuplicates_mem_lt (m : Mesh) :
    ∀ p ∈ findDuplicates m, p.1 < m.verts.length ∧ p.2 < m.verts.length := by
  unfold findDuplicates
  refine foldl_preserve (P := fun (acc : List (Nat × Nat)) => ∀ p ∈ acc,
    p.1 < m.verts.length ∧ p.2 < m.verts.length) _ _ _ (by simp) ?_
  intro acc hacc a ha
  refine foldl_preserve (P := fun (acc : List (Nat × Nat)) => ∀ p ∈ acc,
    p.1 < m.verts.length ∧ p.2 < m.verts.length) _ _ _ hacc ?_
  intro acc2 hacc2 b hb
  by_cases hm : attrMatch m a b
  · rw [if_pos hm]
    intro p hp
    rcases mem_insertAssoc hp with h | h
    · exact hacc2 p h
    · subst h
      have ha2 : a < m.verts.length := List.mem_range.mp ha
      have hb2 : b < a := List.mem_range.mp hb
      exact ⟨by omega, ha2⟩
  · rw [if_neg hm]
    exact hacc2

theorem applyMap_lt {tbl : List (Nat × Nat)} {n i : Nat}
    (htbl : ∀ p ∈ tbl, p.2 < n) (hi : i < n) : applyMap tbl i < n := by
  unfold applyMap
  cases hl : tbl.lookup i with
  | none => simpa using hi
  | some v => simpa using htbl _ (mem_of_lookup_eq_some hl)

theorem dupRemapped_bounded {m : Mesh} (h : meshTopoBounded m) :
    meshTopoBounded (dupRemapped m) := by
  intro j hj
  rw [topoIndexList_dupRemapped] at hj
  rcases List.mem_map.mp hj with ⟨i, hi, rfl⟩
  rw [dupRemapped_verts]
  exact applyMap_lt (fun p hp => (findDuplicates_mem_lt m p hp).2) (h i hi)

theorem compactMesh_bounded {m : Mesh} (h : meshTopoBounded m) :
    meshTopoBounded (compactMesh m) := by
  intro j hj
  rw [topoIndexList_compactMesh] at hj
  rcases List.mem_map.mp hj with ⟨i, hi, rfl⟩
  have hin : i < m.verts.length := h i hi
  have hiu : i ∈ usedSet m := mem_usedSet.mpr hi
  rw [applyMap, lookup_newIndexTable _ hin hiu, Option.getD_some, compactMesh_verts_length]
  exact specNewIndex_lt _ hin hiu

theorem removeWasteVertices_bounded {m : Mesh} (h : meshTopoBounded m) :
    meshTopoBounded (removeWasteVertices m).mesh := by
  cases hv : validate m with
  | some e =>
    rw [removeWasteVertices_eq_error hv]
    exact h
  | none =>
    by_cases hc : (usedSet m).card = m.verts.length
    · rw [removeWasteVertices_eq_noop hv hc]
      exact h
    · rw [removeWasteVertices_eq_write hv hc]
      exact compactMesh_bounded h

/-- The `[A, A, B]` mesh of the duplicate-collapse scenario: identical
attribute tuples at indices 0 and 1, one triangle `(0, 1, 2)`. -/
def dupExample : Mesh :=
  ⟨[(0, 0, 0), (0, 0, 0), (1, 0, 0)], [], [], [], 3, [(0, 1, 2)], [], [], false⟩

/-- C1 counterexample: on `[A, A, B]` the detection pass does not produce
the mapping `1 -> 0`; it records no entry at all for key 1 and instead maps
`0 -> 1` (the source inserts `map[b] = a` for `b < a`, so the earlier index
is the key and the later one the value). -/
theorem duplicate_detection_maps_earlier_to_later :
    (findDuplicates dupExample).lookup 1 = none
    ∧ findDuplicates dupExample ≠ [(1, 0)]
    ∧ (findDuplicates dupExample).lookup 0 = some 1 := by decide

/-- C1 (amended): on `[A, A, B]` with triangle `(0, 1, 2)`, the detection
pass produces the mapping `0 -> 1` (each earlier duplicate maps to its
latest-indexed duplicate, last match wins); after the full removal the
triangle becomes `(0, 0, 1)` and the vertex count drops from 3 to 2. -/
theorem duplicate_collapse_determinism :
    findDuplicates dupExample = [(0, 1)]
    ∧ (removeDuplicateVertices dupExample).mesh.tris = [(0, 0, 1)]
    ∧ (removeDuplicateVertices dupExample).mesh.verts.length = 2
    ∧ (removeDuplicateVertices dupExample).error = none := by decide

/-- A one-vertex mesh whose triangle carries the out-of-range index 5. -/
def oobExample : Mesh := ⟨[(0, 0, 0)], [], [], [], 1, [(0, 0, 5)], [], [], false⟩

/-- C2 counterexample: `removeUnusedVertices` completes without error on a
mesh whose triangle holds the out-of-range index 5, and the output triangle
list still holds 5 while the new vertex count is 1. -/
theorem index_validity_counterexample :
    (removeUnusedVertices oobExample).error = none
    ∧ (removeUnusedVertices oobExample).mesh.verts.length = 1
    ∧ ¬ (∀ i ∈ topoIndexList (removeUnusedVertices oobExample).mesh,
          i < (removeUnusedVertices oobExample).mesh.verts.length) := by decide

/-- C2 (amended): for every mesh whose input triangle and strip indices are
all below the vertex count, after `removeUnusedVertices` or
`removeDuplicateVertices` completes successfully every index in the
triangle list and every strip is strictly below the new vertex count. -/
theorem index_validity_invariant (m : Mesh) (h : meshTopoBounded m) :
    ((removeUnusedVertices m).error = none →
      ∀ i ∈ topoIndexList (removeUnusedVertices m).mesh,
        i < (removeUnusedVertices m).mesh.verts.length)
    ∧ ((removeDuplicateVertices m).error = none →
      ∀ i ∈ topoIndexList (removeDuplicateVertices m).mesh,
        i < (removeDuplicateVertices m).mesh.verts.length) := by
  constructor
  · intro _
    exact removeWasteVertices_bounded h
  · intro _
    cases hv : validate m with
    | some e =>
      rw [removeDuplicateVertices_eq_error hv]
      exact h
    | none =>
      rw [removeDuplicateVertices_eq_ok hv]
      exact removeWasteVertices_bounded (dupRemapped_bounded h)

/-- C2 witness: the amended invariant evaluated on the `[A, A, B]` mesh at
the topology index 0 of the collapsed triangle `(0, 0, 1)`. -/
theorem index_validity_invariant_witness :
    0 < (removeDuplicateVertices dupExample).mesh.verts.length :=
  (index_validity_invariant dupExample (by decide)).2 (by decide) 0 (by decide)

theorem usedSet_subset_range {m : Mesh} (h : meshTopoBounded m) :
    usedSet m ⊆ Finset.range m.verts.length := by
  intro x hx
  exact Finset.mem_range.mpr (h x (mem_usedSet.mp hx))

theorem removeWasteVertices_count {m : Mesh} (h : meshTopoBounded m)
    (he : (removeWasteVertices m).error = none) :
    ((removeWasteVertices m).mesh.verts.length : Int)
      + (removeWasteVertices m).removedReported = (m.verts.length : Int) := by
  cases hv : validate m with
  | some e =>
    rw [removeWasteVertices_eq_error hv] at he
    simp at he
  | none =>
    have hsub := usedSet_subset_range h
    have hcard : (usedSet m).card ≤ m.verts.length := by
      simpa [Finset.card_range] using Finset.card_le_card hsub
    by_cases hc : (usedSet m).card = m.verts.length
    · rw [removeWasteVertices_eq_noop hv hc]
      simp only []
      omega
    · rw [removeWasteVertices_eq_write hv hc]
      simp only []
      have hlen : (compactMesh m).verts.length = (usedSet m).card := by
        rw [compactMesh_verts_length, filter_range_length_card _ _ hsub]
      rw [hlen]
      omega

/-- A two-vertex mesh whose triangle references only vertex 0, so the
removal pass drops vertex 1. -/
def unusedExample : Mesh := ⟨[(0, 0, 0), (1, 0, 0)], [], [], [], 2, [(0, 0, 0)], [], [], false⟩

/-- C4 counterexample: on the mesh whose triangle holds the out-of-range
index 5, `removeUnusedVertices` succeeds but the new vertex count plus the
reported removed count is 0, not the old vertex count 1 (the used map
counts the stray index, so the report is `-1`). -/
theorem count_conservation_counterexample :
    (removeUnusedVertices oobExample).error = none
    ∧ (removeUnusedVertices oobExample).removedReported = -1
    ∧ ((removeUnusedVertices oobExample).mesh.verts.length : Int)
        + (removeUnusedVertices oobExample).removedReported
        ≠ (oobExample.verts.length : Int) := by decide

/-- C4 (amended): for every mesh whose input topology indices are all below
the vertex count, the new vertex count plus the removed count reported to
the operator equals the old vertex count, for both removal operations. -/
theorem count_conservation (m : Mesh) (h : meshTopoBounded m) :
    ((removeUnusedVertices m).error = none →
      ((removeUnusedVertices m).mesh.verts.length : Int)
        + (removeUnusedVertices m).removedReported = (m.verts.length : Int))
    ∧ ((removeDuplicateVertices m).error = none →
      ((removeDuplicateVertices m).mesh.verts.length : Int)
        + (removeDuplicateVertices m).removedReported = (m.verts.length : Int)) := by
  constructor
  · intro he
    exact removeWasteVertices_count h he
  · intro he
    cases hv : validate m with
    | some e =>
      rw [removeDuplicateVertices_eq_error hv] at he
      simp at he
    | none =>
      rw [removeDuplicateVertices_eq_ok hv] at he ⊢
      have hc := removeWasteVertices_count (dupRemapped_bounded h) he
      rwa [dupRemapped_verts] at hc

/-- C4 witness: count conservation evaluated on the two-vertex mesh with an
unused vertex (1 kept + 1 removed = 2). -/
theorem count_conservation_witness :
    ((removeUnusedVertices unusedExample).mesh.verts.length : Int)
      + (removeUnusedVertices unusedExample).removedReported
      = (unusedExample.verts.length : Int)
    ∧ (removeUnusedVertices unusedExample).mesh.verts.length = 1 :=
  ⟨(count_conservation unusedExample (by decide)).1 (by decide), by decide⟩

theorem compactMesh_bones (m : Mesh) :
    (compactMesh m).bones
      = m.bones.map (updateBone (usedSet m) (newIndexTable (usedSet m) m.verts.length)) := rfl

/-- The specification-side bone update: keep exactly the pairs whose vertex
index is referenced, rewrite each surviving index to the count of kept
indices below it, keep the relative order, and store the surviving length. -/
def specUpdateBone (m : Mesh) (b : Bone) : Bone :=
  let ws := (b.weights.filter (fun w => w.1 ∈ usedSet m)).map
    (fun w => (specNewIndex (usedSet m) w.1, w.2))
  ⟨ws.length, ws⟩

theorem updateBone_spec {m : Mesh} (h : meshTopoBounded m) (b : Bone) :
    updateBone (usedSet m) (newIndexTable (usedSet m) m.verts.length) b
      = specUpdateBone m b := by
  unfold updateBone specUpdateBone
  have hlist : (b.weights.filter (fun w => w.1 ∈ usedSet m)).map
        (fun w => (applyMap (newIndexTable (usedSet m) m.verts.length) w.1, w.2))
      = (b.weights.filter (fun w => w.1 ∈ usedSet m)).map
        (fun w => (specNewIndex (usedSet m) w.1, w.2)) := by
    apply List.map_congr_left
    intro w hw
    have hwu : w.1 ∈ usedSet m := by simpa using (List.mem_filter.mp hw).2
    have hwin : w.1 < m.verts.length := h w.1 (mem_usedSet.mp hwu)
    simp [applyMap, lookup_newIndexTable _ hwin hwu]
  rw [hlist]

/-- C5: after a removal that drops vertices, each bone's weight list
retains exactly the pairs whose vertex index was kept, rewrites each
surviving index through the old-to-new table (equal to the count of kept
indices below it), preserves the relative order of survivors, and stores
the surviving length in the bone's vertex count field. -/
theorem skin_weight_sync (m : Mesh) (h : meshTopoBounded m)
    (hw : (removeUnusedVertices m).wrote = true) :
    (removeUnusedVertices m).mesh.bones = m.bones.map (specUpdateBone m) := by
  have hw2 : (removeWasteVertices m).wrote = true := hw
  show (removeWasteVertices m).mesh.bones = _
  cases hv : validate m with
  | some e =>
    rw [removeWasteVertices_eq_error hv] at hw2
    exact absurd hw2 (by simp)
  | none =>
    by_cases hc : (usedSet m).card = m.verts.length
    · rw [removeWasteVertices_eq_noop hv hc] at hw2
      exact absurd hw2 (by simp)
    · rw [removeWasteVertices_eq_write hv hc]
      show (compactMesh m).bones = _
      rw [compactMesh_bones]
      exact List.map_congr_left (fun b _ => updateBone_spec h b)

/-- The skinned mesh of the skin-sync scenario: three vertices, triangle
`(0, 2, 2)` leaving vertex 1 unused, one bone with weights
`[(0, 1), (1, 1/2), (2, 3/10)]`, and a skin partition present. -/
def skinExample : Mesh :=
  ⟨[(0, 0, 0), (1, 0, 0), (2, 0, 0)], [], [], [], 3, [(0, 2, 2)], [],
    [⟨3, [(0, 1), (1, 1/2), (2, 3/10)]⟩], true⟩

/-- C5 witness: dropping vertex 1 turns the bone list
`[(0, 1), (1, 1/2), (2, 3/10)]` into `[(0, 1), (1, 3/10)]` -- the entry for
index 1 is gone, vertex 2 is renumbered to 1, order is preserved and the
bone's count field becomes 2. -/
theorem skin_weight_sync_witness :
    (removeUnusedVertices skinExample).mesh.bones = [⟨2, [(0, 1), (1, 3/10)]⟩] := by
  rw [skin_weight_sync skinExample (by decide) (by decide)]
  rfl

theorem removeWasteVertices_partition {m : Mesh} (hp : m.hasSkinPartition = true)
    (hw : (removeWasteVertices m).wrote = true) :
    (removeWasteVertices m).error = none
    ∧ (removeWasteVertices m).mesh.hasSkinPartition = false
    ∧ (removeWasteVertices m).skinPartitionDeleted = true
    ∧ (removeWasteVertices m).warned = true := by
  cases hv : validate m with
  | some e =>
    rw [removeWasteVertices_eq_error hv] at hw
    exact absurd hw (by simp)
  | none =>
    by_cases hc : (usedSet m).card = m.verts.length
    · rw [removeWasteVertices_eq_noop hv hc] at hw
      exact absurd hw (by simp)
    · rw [removeWasteVertices_eq_write hv hc]
      exact ⟨rfl, rfl, hp, hp⟩

/-- C6: any successful removal that drops vertices from a mesh with an
associated skin partition deletes that partition unconditionally, surfaces
the advisory regeneration warning, and still succeeds, for both removal
operations. -/
theorem skin_partition_invalidation (m : Mesh) (hp : m.hasSkinPartition = true) :
    ((removeUnusedVertices m).wrote = true →
      (removeUnusedVertices m).error = none
      ∧ (removeUnusedVertices m).mesh.hasSkinPartition = false
      ∧ (removeUnusedVertices m).skinPartitionDeleted = true
      ∧ (removeUnusedVertices m).warned = true)
    ∧ ((removeDuplicateVertices m).wrote = true →
      (removeDuplicateVertices m).error = none
      ∧ (removeDuplicateVertices m).mesh.hasSkinPartition = false
      ∧ (removeDuplicateVertices m).skinPartitionDeleted = true
      ∧ (removeDuplicateVertices m).warned = true) := by
  constructor
  · exact fun hw => removeWasteVertices_partition hp hw
  · intro hw
    cases hv : validate m with
    | some e =>
      rw [removeDuplicateVertices_eq_error hv] at hw
      exact absurd hw (by simp)
    | none =>
      rw [removeDuplicateVertices_eq_ok hv] at hw ⊢
      have hp2 : (dupRemapped m).hasSkinPartition = true := hp
      exact removeWasteVertices_partition hp2 hw

/-- C6 witness: removing the unused vertex of the skinned example deletes
its partition and warns, and the operation succeeds. -/
theorem skin_partition_invalidation_witness :
    (removeUnusedVertices skinExample).mesh.hasSkinPartition = false
    ∧ (removeUnusedVertices skinExample).skinPartitionDeleted = true
    ∧ (removeUnusedVertices skinExample).warned = true
    ∧ (removeUnusedVertices skinExample).error = none := by
  have h := (skin_partition_invalidation skinExample (by decide)).1 (by decide)
  exact ⟨h.2.1, h.2.2.1, h.2.2.2, h.1⟩

/-- C7 counterexample: on the one-vertex mesh whose triangle holds the
stray index 5, every vertex is referenced, yet the operation does not take
the no-op early return -- it rewrites every array back. -/
theorem roundtrip_noop_counterexample :
    (∀ i < oobExample.verts.length, i ∈ usedSet oobExample)
    ∧ (removeUnusedVertices oobExample).wrote = true := by decide

/-- C7 (amended): for every mesh whose topology indices are in range and in
which every vertex index is referenced by a triangle corner or strip
element, `removeUnusedVertices` is a no-op: nothing is written back and the
mesh is returned exactly as it was. -/
theorem roundtrip_noop (m : Mesh) (h : meshTopoBounded m)
    (hall : ∀ i < m.verts.length, i ∈ usedSet m) :
    (removeUnusedVertices m).wrote = false ∧ (removeUnusedVertices m).mesh = m := by
  have hset : usedSet m = Finset.range m.verts.length := by
    apply Finset.Subset.antisymm (usedSet_subset_range h)
    intro x hx
    exact hall x (Finset.mem_range.mp hx)
  have hc : (usedSet m).card = m.verts.length := by
    rw [hset, Finset.card_range]
  show (removeWasteVertices m).wrote = false ∧ (removeWasteVertices m).mesh = m
  cases hv : validate m with
  | some e =>
    rw [removeWasteVertices_eq_error hv]
    exact ⟨rfl, rfl⟩
  | none =>
    rw [removeWasteVertices_eq_noop hv hc]
    exact ⟨rfl, rfl⟩

/-- C7 witness: the fully-referenced `[A, A, B]` mesh is returned untouched. -/
theorem roundtrip_noop_witness :
    (removeUnusedVertices dupExample).wrote = false
    ∧ (removeUnusedVertices dupExample).mesh = dupExample :=
  roundtrip_noop dupExample (by decide) (by decide)

/-- The preconditions the spec states for both removal operations: position
array non-empty, every UV channel and every populated optional attribute
array equal in length to the vertex count, and the declared vertex count
field equal to the position-array length. -/
def validationOK (m : Mesh) : Prop :=
  m.verts.length ≠ 0
  ∧ (∀ ch ∈ m.texco, ch.length = m.verts.length)
  ∧ m.numVertices = m.verts.length
  ∧ (m.norms = [] ∨ m.norms.length = m.verts.length)
  ∧ (m.colors = [] ∨ m.colors.length = m.verts.length)

theorem validate_none_iff (m : Mesh) : validate m = none ↔ validationOK m := by
  unfold validate validationOK
  by_cases h1 : m.verts.length = 0
  · simp [h1]
  · by_cases h2 : ∃ ch ∈ m.texco, ch.length ≠ m.verts.length
    · have hb : m.texco.any (fun ch => ch.length != m.verts.length) = true := by
        rcases h2 with ⟨ch, hch, hne⟩
        exact List.any_eq_true.mpr ⟨ch, hch, by simpa using hne⟩
      simp only [h1, if_neg, hb]
      simp only [beq_iff_eq, h1, if_false, if_true]
      constructor
      · intro h; simp at h
      · rintro ⟨-, hall, -⟩
        rcases h2 with ⟨ch, hch, hne⟩
        exact absurd (hall ch hch) hne
    · push_neg at h2
      have hb : m.texco.any (fun ch => ch.length != m.verts.length) = false := by
        rw [List.any_eq_false]
        intro ch hch
        simpa using h2 ch hch
      have hC : (m.numVertices != m.verts.length
            || (!m.norms.isEmpty && m.norms.length != m.verts.length)
            || (!m.colors.isEmpty && m.colors.length != m.verts.length)) = false
          ↔ (m.numVertices = m.verts.length
            ∧ (m.norms = [] ∨ m.norms.length = m.verts.length)
            ∧ (m.colors = [] ∨ m.colors.length = m.verts.length)) := by
        simp [List.isEmpty_iff, or_iff_not_imp_left, and_assoc]
      simp only [beq_iff_eq, h1, if_false, hb, Bool.false_eq_true, if_false]
      constructor
      · intro h
        refine ⟨h1, h2, hC.mp ?_⟩
        cases hcb : (m.numVertices != m.verts.length
            || (!m.norms.isEmpty && m.norms.length != m.verts.length)
            || (!m.colors.isEmpty && m.colors.length != m.verts.length)) with
        | false => rfl
        | true =>
          rw [if_pos hcb] at h
          exact absurd h (by simp)
      · rintro ⟨-, -, hrest⟩
        rw [if_neg]
        simp [hC.mpr hrest]

theorem removeWasteVertices_error_none_iff (m : Mesh) :
    (removeWasteVertices m).error = none ↔ validate m = none := by
  cases hv : validate m with
  | some e =>
    rw [removeWasteVertices_eq_error hv]
  | none =>
    by_cases hc : (usedSet m).card = m.verts.length
    · rw [removeWasteVertices_eq_noop hv hc]
    · rw [removeWasteVertices_eq_write hv hc]

theorem removeWasteVertices_error_state {m : Mesh}
    (he : (removeWasteVertices m).error ≠ none) :
    (removeWasteVertices m).mesh = m ∧ (removeWasteVertices m).wrote = false := by
  cases hv : validate m with
  | some e =>
    rw [removeWasteVertices_eq_error hv]
    exact ⟨rfl, rfl⟩
  | none =>
    exact absurd ((removeWasteVertices_error_none_iff m).mpr hv) he

theorem removeDuplicateVertices_error_none_iff (m : Mesh) :
    (removeDuplicateVertices m).error = none ↔ validate m = none := by
  cases hv : validate m with
  | some e =>
    rw [removeDuplicateVertices_eq_error hv]
  | none =>
    rw [removeDuplicateVertices_eq_ok hv]
    have h2 : validate (dupRemapped m) = none := by
      rw [validate_dupRemapped]
      exact hv
    simp [(removeWasteVertices_error_none_iff (dupRemapped m)).mpr h2]

/-- C8: both removal operations detect every precondition violation before
any mutation: the operation fails exactly when a precondition fails, an
empty position array fails with the "No vertices" message, and on any
failure the mesh is returned unchanged with nothing written back. -/
theorem validation_atomicity (m : Mesh) :
    ((removeUnusedVertices m).error ≠ none ↔ ¬ validationOK m)
    ∧ ((removeUnusedVertices m).error ≠ none →
        (removeUnusedVertices m).mesh = m ∧ (removeUnusedVertices m).wrote = false)
    ∧ (m.verts.length = 0 → (removeUnusedVertices m).error = some "No vertices")
    ∧ ((removeDuplicateVertices m).error ≠ none ↔ ¬ validationOK m)
    ∧ ((removeDuplicateVertices m).error ≠ none →
        (removeDuplicateVertices m).mesh = m ∧ (removeDuplicateVertices m).wrote = false)
    ∧ (m.verts.length = 0 → (removeDuplicateVertices m).error = some "No vertices") := by
  have hempty : m.verts.length = 0 → validate m = some "No vertices" := by
    intro h0
    unfold validate
    simp [h0]
  refine ⟨?_, ?_, ?_, ?_, ?_, ?_⟩
  · rw [not_iff_not.mpr (validate_none_iff m).symm]
    exact not_iff_not.mpr (removeWasteVertices_error_none_iff m)
  · exact fun he => removeWasteVertices_error_state he
  · intro h0
    rw [show removeUnusedVertices m = removeWasteVertices m from rfl,
      removeWasteVertices_eq_error (hempty h0)]
  · rw [not_iff_not.mpr (validate_none_iff m).symm]
    exact not_iff_not.mpr (removeDuplicateVertices_error_none_iff m)
  · intro he
    cases hv : validate m with
    | some e =>
      rw [removeDuplicateVertices_eq_error hv]
      exact ⟨rfl, rfl⟩
    | none =>
      exact absurd ((removeDuplicateVertices_error_none_iff m).mpr hv) he
  · intro h0
    rw [removeDuplicateVertices_eq_error (hempty h0)]

/-- The empty mesh: no vertices at all. -/
def emptyMesh : Mesh := ⟨[], [], [], [], 0, [], [], [], false⟩

/-- C8 witness: on the empty mesh both operations fail with "No vertices"
and return the mesh unchanged without writing. -/
theorem validation_atomicity_witness :
    (removeUnusedVertices emptyMesh).error = some "No vertices"
    ∧ (removeUnusedVertices emptyMesh).mesh = emptyMesh
    ∧ (removeUnusedVertices emptyMesh).wrote = false
    ∧ (removeDuplicateVertices emptyMesh).error = some "No vertices" := by
  have h := validation_atomicity emptyMesh
  exact ⟨h.2.2.1 rfl, (h.2.1 (by decide)).1, (h.2.1 (by decide)).2, h.2.2.2.2.2 rfl⟩

/-- C9: a snapshot whose record count differs from the vertex count makes
the transplant fail with the count-mismatch error and leaves every vertex
record exactly as it was, with nothing matched and nothing reported
modified. -/
theorem transplant_count_mismatch (cur : List VertexRec) (samples : List SampleRec)
    (h : samples.length ≠ cur.length) :
    pasteVertexData cur samples = ⟨cur, [], 0, some "CountMismatch"⟩ := by
  unfold pasteVertexData
  have hb : (samples.length == cur.length) = false := by simpa using h
  simp [hb]

/-- C9 witness: a one-vertex mesh with an empty snapshot. -/
theorem transplant_count_mismatch_witness :
    pasteVertexData [⟨(0, 0, 0), (0, 0)⟩] []
      = ⟨[⟨(0, 0, 0), (0, 0)⟩], [], 0, some "CountMismatch"⟩ :=
  transplant_count_mismatch [⟨(0, 0, 0), (0, 0)⟩] [] (by decide)

theorem scanFrom_eq_some {ok : Nat → Bool} :
    ∀ (k j j2 : Nat), scanFrom ok j k = some j2 →
      j ≤ j2 ∧ j2 < j + k ∧ ok j2 = true ∧ ∀ i, j ≤ i → i < j2 → ok i = false := by
  intro k
  induction k with
  | zero =>
    intro j j2 h
    simp [scanFrom] at h
  | succ k ih =>
    intro j j2 h
    cases hj : ok j with
    | true =>
      simp only [scanFrom, hj, if_true] at h
      obtain rfl : j = j2 := by simpa using h
      exact ⟨Nat.le_refl j, by omega, hj, fun i h1 h2 => absurd h1 (by omega)⟩
    | false =>
      simp only [scanFrom, hj, Bool.false_eq_true, if_false] at h
      obtain ⟨h1, h2, h3, h4⟩ := ih (j + 1) j2 h
      refine ⟨by omega, by omega, h3, ?_⟩
      intro i hi1 hi2
      rcases Nat.eq_or_lt_of_le hi1 with rfl | hlt
      · exact hj
      · exact h4 i (by omega) hi2

theorem scanFrom_eq_none {ok : Nat → Bool} :
    ∀ (k j : Nat), scanFrom ok j k = none → ∀ i, j ≤ i → i < j + k → ok i = false := by
  intro k
  induction k with
  | zero =>
    intro j _ i h1 h2
    omega
  | succ k ih =>
    intro j h i hi1 hi2
    cases hj : ok j with
    | true => simp [scanFrom, hj] at h
    | false =>
      simp only [scanFrom, hj, Bool.false_eq_true, if_false] at h
      rcases Nat.eq_or_lt_of_le hi1 with rfl | hlt
      · exact hj
      · exact ih (j + 1) h i (by omega) (by omega)

/-- The specification-side match test: the UV difference is strictly below
the tolerance in both components. -/
def specUVMatch (tol : ℚ) (uv suv : V2) : Prop :=
  |uv.1 - suv.1| < tol ∧ |uv.2 - suv.2| < tol

theorem uvClose_iff_specUVMatch (uv suv : V2) (tol : ℚ) :
    uvClose uv suv tol = true ↔ specUVMatch tol uv suv := by
  unfold uvClose specUVMatch
  simp only [Bool.and_eq_true, decide_eq_true_eq, abs_lt]
  tauto

theorem findSample_eq_some {uv : V2} {samples : List SampleRec} {used : List Bool}
    {tol : ℚ} {j : Nat} (h : findSample uv samples used tol = some j) :
    j < samples.length
    ∧ used.getD j true = false
    ∧ uvClose uv (samples.getD j default).uv tol = true
    ∧ ∀ k < j, used.getD k true = false →
        uvClose uv (samples.getD k default).uv tol = false := by
  obtain ⟨-, h2, h3, h4⟩ := scanFrom_eq_some samples.length 0 j h
  have hok : (!(used.getD j true) && uvClose uv (samples.getD j default).uv tol) = true := h3
  obtain ⟨hu, hc⟩ := Bool.and_eq_true_iff.mp hok
  refine ⟨by omega, by simpa using hu, hc, ?_⟩
  intro k hk hku
  have hkf := h4 k (Nat.zero_le k) hk
  rcases Bool.and_eq_false_iff.mp hkf with hf | hf
  · rw [hku] at hf
    simp at hf
  · exact hf

theorem findSample_eq_none {uv : V2} {samples : List SampleRec} {used : List Bool}
    {tol : ℚ} (h : findSample uv samples used tol = none) :
    ∀ j < samples.length, used.getD j true = false →
      uvClose uv (samples.getD j default).uv tol = false := by
  intro j hj hju
  have hjf := scanFrom_eq_none samples.length 0 h j (Nat.zero_le j) (by omega)
  rcases Bool.and_eq_false_iff.mp hjf with hf | hf
  · rw [hju] at hf
    simp at hf
  · exact hf

/-- C3: the transplant matching contract. The tolerance test accepts
exactly the samples whose UV differs from the vertex UV by strictly less
than the tolerance in both components, so a difference of exactly the
tolerance on either axis never matches; the scan takes the first unused
sample that passes, copies its position onto the vertex, marks it used and
stops; when no sample passes, the vertex is left unchanged and its index is
appended to the unmatched report; vertices are processed in ascending index
order by the outer loop; the source's fixed tolerance is `1/100000`. -/
theorem transplant_matching_contract (tol : ℚ) (samples : List SampleRec)
    (used : List Bool) (v : VertexRec) :
    (∀ uv suv : V2, uvClose uv suv tol = true ↔ specUVMatch tol uv suv)
    ∧ (∀ uv suv : V2, |uv.1 - suv.1| = tol ∨ |uv.2 - suv.2| = tol →
        uvClose uv suv tol = false)
    ∧ (∀ j, findSample v.uv samples used tol = some j →
        j < samples.length
        ∧ used.getD j true = false
        ∧ specUVMatch tol v.uv (samples.getD j default).uv
        ∧ (∀ k < j, used.getD k true = false →
            ¬ specUVMatch tol v.uv (samples.getD k default).uv)
        ∧ processVertex tol samples used v
            = (⟨(samples.getD j default).pos, v.uv⟩, used.set j true, true))
    ∧ (findSample v.uv samples used tol = none →
        processVertex tol samples used v = (v, used, false)
        ∧ ∀ j < samples.length, used.getD j true = false →
            ¬ specUVMatch tol v.uv (samples.getD j default).uv)
    ∧ (∀ (rest : List VertexRec) (i : Nat),
        processVertex tol samples used v = (v, used, false) →
        transplantAux tol samples (v :: rest) used i
          = (v :: (transplantAux tol samples rest used (i + 1)).1,
             i :: (transplantAux tol samples rest used (i + 1)).2.1,
             (transplantAux tol samples rest used (i + 1)).2.2))
    ∧ (∀ (rest : List VertexRec) (i : Nat) (v2 : VertexRec) (used2 : List Bool),
        processVertex tol samples used v = (v2, used2, true) →
        transplantAux tol samples (v :: rest) used i
          = (v2 :: (transplantAux tol samples rest used2 (i + 1)).1,
             (transplantAux tol samples rest used2 (i + 1)).2.1,
             (transplantAux tol samples rest used2 (i + 1)).2.2 + 1))
    ∧ uvTolerance = 1 / 100000 := by
  refine ⟨fun uv suv => uvClose_iff_specUVMatch uv suv tol, ?_, ?_, ?_, ?_, ?_, rfl⟩
  · intro uv suv hab
    cases hcb : uvClose uv suv tol with
    | false => rfl
    | true =>
      obtain ⟨h1, h2⟩ := (uvClose_iff_specUVMatch uv suv tol).mp hcb
      rcases hab with hab | hab
      · rw [hab] at h1
        exact absurd h1 (lt_irrefl tol)
      · rw [hab] at h2
        exact absurd h2 (lt_irrefl tol)
  · intro j hj
    obtain ⟨h1, h2, h3, h4⟩ := findSample_eq_some hj
    refine ⟨h1, h2, (uvClose_iff_specUVMatch _ _ _).mp h3, ?_, ?_⟩
    · intro k hk hku hspec
      have := h4 k hk hku
      rw [(uvClose_iff_specUVMatch _ _ _).mpr hspec] at this
      simp at this
    · unfold processVertex
      rw [hj]
  · intro hn
    constructor
    · unfold processVertex
      rw [hn]
    · intro j hj hju hspec
      have := findSample_eq_none hn j hj hju
      rw [(uvClose_iff_specUVMatch _ _ _).mpr hspec] at this
      simp at this
  · intro rest i hpv
    show (let pv := processVertex tol samples used v
          let r := transplantAux tol samples rest pv.2.1 (i + 1)
          (pv.1 :: r.1, if pv.2.2 then r.2.1 else i :: r.2.1,
            if pv.2.2 then r.2.2 + 1 else r.2.2)) = _
    rw [hpv]
    rfl
  · intro rest i v2 used2 hpv
    show (let pv := processVertex tol samples used v
          let r := transplantAux tol samples rest pv.2.1 (i + 1)
          (pv.1 :: r.1, if pv.2.2 then r.2.1 else i :: r.2.1,
            if pv.2.2 then r.2.2 + 1 else r.2.2)) = _
    rw [hpv]
    rfl

/-- One external sample at position `(5, 5, 5)` with UV `(0, 0)`. -/
def sampleEx : List SampleRec := [⟨(5, 5, 5), (0, 0)⟩]

/-- One current vertex at the origin with UV `(0, 0)`. -/
def vertexEx : VertexRec := ⟨(0, 0, 0), (0, 0)⟩

/-- C3 witness: with tolerance 1 the vertex with UV `(0, 0)` matches the
single unused sample with the same UV; the sample's position is copied onto
the vertex, the sample is marked used and the scan reports a match. -/
theorem transplant_matching_contract_witness :
    processVertex 1 sampleEx [false] vertexEx = (⟨(5, 5, 5), (0, 0)⟩, [true], true) := by
  have hfs : findSample vertexEx.uv sampleEx [false] 1 = some 0 := by
    norm_num [findSample, scanFrom, uvClose, sampleEx, vertexEx]
  have h := ((transplant_matching_contract 1 sampleEx [false] vertexEx).2.2.1 0 hfs).2.2.2.2
  rw [h]
  rfl

theorem filter_range_length_eq (used : Finset Nat) (n : Nat) :
    ((List.range n).filter (fun x => decide (x ∈ used))).length
      = (used.filter (fun x => x < n)).card := by
  rw [← List.toFinset_card_of_nodup ((List.nodup_range n).filter _), filter_range_toFinset]

theorem lookup_newIndexTable_none {used : Finset Nat} {n i : Nat} (hn : n ≤ i) :
    (newIndexTable used n).lookup i = none := by
  apply lookup_eq_none_of_keys
  intro p hp
  have hm := @tableAux_key_mem used _ _ p hp
  have : p.1 < n := List.mem_range.mp hm
  omega

/-- C10: `removeWasteVertices` never checks topology indices against the
vertex count. Any triangle corner or strip element `i` at or above the
vertex count lands in the used set (so the reported removed count is at
most, and on a write strictly below, the true number of dropped vertices),
gets no entry in the old-to-new table, and is written back to the output
topology unchanged, leaving an index at or above the new vertex count. -/
theorem no_topology_bounds_check (m : Mesh) (i : Nat)
    (hi : i ∈ topoIndexList m) (hn : m.verts.length ≤ i) :
    i ∈ usedSet m
    ∧ (newIndexTable (usedSet m) m.verts.length).lookup i = none
    ∧ i ∈ topoIndexList (removeWasteVertices m).mesh
    ∧ (removeWasteVertices m).mesh.verts.length ≤ i
    ∧ (removeWasteVertices m).removedReported
        + ((removeWasteVertices m).mesh.verts.length : Int) ≤ (m.verts.length : Int)
    ∧ ((removeWasteVertices m).wrote = true →
        (removeWasteVertices m).removedReported
          + ((removeWasteVertices m).mesh.verts.length : Int) < (m.verts.length : Int)) := by
  have hu : i ∈ usedSet m := mem_usedSet.mpr hi
  have hlook : (newIndexTable (usedSet m) m.verts.length).lookup i = none :=
    lookup_newIndexTable_none hn
  have hcard : ((usedSet m).filter (fun x => x < m.verts.length)).card < (usedSet m).card := by
    apply Finset.card_lt_card
    constructor
    · exact Finset.filter_subset _ _
    · intro hsub
      have := Finset.mem_filter.mp (hsub hu)
      omega
  refine ⟨hu, hlook, ?_⟩
  cases hv : validate m with
  | some e =>
    rw [removeWasteVertices_eq_error hv]
    refine ⟨hi, hn, ?_, by intro h; exact absurd h (by simp)⟩
    show (0 : Int) + (m.verts.length : Int) ≤ (m.verts.length : Int)
    omega
  | none =>
    by_cases hc : (usedSet m).card = m.verts.length
    · rw [removeWasteVertices_eq_noop hv hc]
      refine ⟨hi, hn, ?_, by intro h; exact absurd h (by simp)⟩
      show (m.verts.length : Int) - ((usedSet m).card : Int) + (m.verts.length : Int)
        ≤ (m.verts.length : Int)
      omega
    · rw [removeWasteVertices_eq_write hv hc]
      have hlen : (compactMesh m).verts.length
          = ((usedSet m).filter (fun x => x < m.verts.length)).card := by
        rw [compactMesh_verts_length, filter_range_length_eq]
      refine ⟨?_, ?_, ?_, ?_⟩
      · rw [topoIndexList_compactMesh]
        refine List.mem_map.mpr ⟨i, hi, ?_⟩
        rw [applyMap, hlook]
        rfl
      · show (compactMesh m).verts.length ≤ i
        rw [hlen]
        have h1 : ((usedSet m).filter (fun x => x < m.verts.length)).card ≤ m.verts.length := by
          have h2 := filter_range_length_eq (usedSet m) m.verts.length
          have h3 := List.length_filter_le (fun x => decide (x ∈ usedSet m))
            (List.range m.verts.length)
          rw [h2] at h3
          simpa using h3
        omega
      · show (m.verts.length : Int) - ((usedSet m).card : Int)
            + ((compactMesh m).verts.length : Int) ≤ (m.verts.length : Int)
        rw [hlen]
        omega
      · intro _
        show (m.verts.length : Int) - ((usedSet m).card : Int)
            + ((compactMesh m).verts.length : Int) < (m.verts.length : Int)
        rw [hlen]
        omega

/-- C10 witness: on the one-vertex mesh with triangle `(0, 0, 5)`, index 5
is in the used set, absent from the table, still present in the output
topology, and at or above the new vertex count, and the reported count
undercounts the true removals. -/
theorem no_topology_bounds_check_witness :
    5 ∈ usedSet oobExample
    ∧ (newIndexTable (usedSet oobExample) oobExample.verts.length).lookup 5 = none
    ∧ 5 ∈ topoIndexList (removeWasteVertices oobExample).mesh
    ∧ (removeWasteVertices oobExample).mesh.verts.length ≤ 5 := by
  have h := no_topology_bounds_check oobExample 5 (by decide) (by decide)
  exact ⟨h.1, h.2.1, h.2.2.1, h.2.2.2.1⟩
